import Mathlib

/-!
Verification of `pkg/table/tblctx/buffers.go` (row-mutation buffer pool).

Go slices are modelled as a backing array (`arr : List α`, whose length is
the slice capacity) together with a logical length `len ≤ cap`.  Reusing the
same backing storage is modelled as keeping `arr` unchanged; a fresh
allocation produces a `List.replicate` of the zero value.  A Go runtime
panic (for example `make` with `len > cap`) is modelled as `Option.none`.

Effectful collaborators (the row encoder, the error context, the key-value
memBuffer) are passed as oracle functions, and every outgoing call is also
recorded in an event trace so that theorems can speak about exactly which
arguments were handed to a collaborator.
-/

universe u

/-- Model of a Go slice: backing array, logical length, and the invariant
that the length never exceeds the capacity (`arr.length`). -/
structure GoSlice (α : Type u) where
  arr : List α
  len : Nat
  hlen : len ≤ arr.length

namespace GoSlice

/-- Capacity of the slice: the length of its backing array. -/
def cap (s : GoSlice α) : Nat := s.arr.length

/-- Logical contents of the slice: the first `len` elements of the backing
array. -/
def toList (s : GoSlice α) : List α := s.arr.take s.len

/-- The nil (zero value) slice. -/
def nil : GoSlice α := ⟨[], 0, Nat.le_refl 0⟩

/-- Model of Go `append(s, v)`: write in place when spare capacity exists,
otherwise reallocate (copying the logical contents). -/
def push (s : GoSlice α) (v : α) : GoSlice α :=
  if h : s.len < s.arr.length then
    ⟨s.arr.set s.len v, s.len + 1, by simpa using h⟩
  else
    ⟨s.arr.take s.len ++ [v], s.len + 1, by
      have := s.hlen
      simp [List.length_take]
      omega⟩

theorem toList_length (s : GoSlice α) : s.toList.length = s.len := by
  simp [toList, List.length_take, Nat.min_eq_left s.hlen]

theorem take_succ_set (l : List α) (n : Nat) (v : α) (h : n < l.length) :
    (l.set n v).take (n + 1) = l.take n ++ [v] := by
  induction l generalizing n with
  | nil => simp at h
  | cons a t ih =>
    cases n with
    | zero => simp
    | succ m =>
      simp only [List.set, List.take, List.cons_append, List.cons.injEq, true_and]
      exact ih m (by simpa using h)

theorem toList_push (s : GoSlice α) (v : α) :
    (s.push v).toList = s.toList ++ [v] := by
  unfold push
  split
  · next h =>
    simp only [toList]
    exact take_succ_set s.arr s.len v h
  · next h =>
    have hlen := s.hlen
    have heq : s.len = s.arr.length := Nat.le_antisymm hlen (Nat.not_lt.mp h)
    simp [toList, heq, List.take_of_length_le]

theorem len_push (s : GoSlice α) (v : α) : (s.push v).len = s.len + 1 := by
  unfold push
  split <;> rfl

end GoSlice

/-- Model of `ensureCapacityAndReset` from `buffers.go`: similar to the
built-in `make()`, but reuses the given slice if it has enough capacity.
The optional variadic capacity argument is an `Option`; `none` means the
capacity defaults to `size`.  A panicking execution (requested logical
length larger than the resulting capacity) is `none`. -/
def ensureCapacityAndReset (d : α) (slice : GoSlice α) (size : Nat)
    (optCap : Option Nat) : Option (GoSlice α) :=
  let capacity := optCap.getD size
  if slice.arr.length < capacity then
    if h : size ≤ capacity then
      some ⟨List.replicate capacity d, size, by simpa using h⟩
    else
      none
  else
    if h : size ≤ slice.arr.length then
      some ⟨slice.arr, size, h⟩
    else
      none

/-- Total extraction of `ensureCapacityAndReset` when the capacity argument
is omitted (then the capacity is the size and no panic is possible). -/
def ensureExact (d : α) (s : GoSlice α) (n : Nat) : GoSlice α :=
  if h : s.arr.length < n then
    ⟨List.replicate n d, n, by simp⟩
  else
    ⟨s.arr, n, Nat.le_of_not_lt h⟩

/-- Total extraction of `ensureCapacityAndReset` at size 0 with an explicit
capacity hint (used by the `Reset` methods; no panic is possible). -/
def resetSlice (d : α) (s : GoSlice α) (c : Nat) : GoSlice α :=
  if s.arr.length < c then
    ⟨List.replicate c d, 0, by simp⟩
  else
    ⟨s.arr, 0, by simp⟩

theorem ensureCapacityAndReset_none_eq (d : α) (s : GoSlice α) (n : Nat) :
    ensureCapacityAndReset d s n none = some (ensureExact d s n) := by
  unfold ensureCapacityAndReset ensureExact
  simp only [Option.getD]
  split
  · next h => simp [h]
  · next h => simp [h, Nat.le_of_not_lt h]

theorem ensureCapacityAndReset_zero_eq (d : α) (s : GoSlice α) (c : Nat) :
    ensureCapacityAndReset d s 0 (some c) = some (resetSlice d s c) := by
  unfold ensureCapacityAndReset resetSlice
  simp only [Option.getD]
  split <;> simp

theorem ensureExact_len (d : α) (s : GoSlice α) (n : Nat) :
    (ensureExact d s n).len = n := by
  unfold ensureExact
  split <;> rfl

theorem resetSlice_len (d : α) (s : GoSlice α) (c : Nat) :
    (resetSlice d s c).len = 0 := by
  unfold resetSlice
  split <;> rfl

theorem resetSlice_toList (d : α) (s : GoSlice α) (c : Nat) :
    (resetSlice d s c).toList = [] := by
  unfold resetSlice GoSlice.toList
  split <;> simp

theorem resetSlice_cap (d : α) (s : GoSlice α) (c : Nat) :
    (resetSlice d s c).cap = if s.cap < c then c else s.cap := by
  unfold resetSlice GoSlice.cap
  split <;> simp_all

section Buffers

variable {D E F H L R C : Type}

/-- Modelled from the spec: `variable.WriteStmtBufs` (not under src/), the
external per-statement scratch-buffer object, restricted to the two
resizable areas this file uses: the primary byte area `RowValBuf` and the
secondary datum area `AddRowValues`. -/
structure WriteStmtBufs (D : Type) where
  RowValBuf : List Nat
  AddRowValues : GoSlice D

/-- Modelled from the spec: the row-encoding configuration (not under
src/), restricted to the two fields `WriteMemBufferEncoded` reads: the
row-level checksum toggle and the external row encoder value. -/
structure RowEncodingConfig (C : Type) where
  IsRowLevelChecksumEnabled : Bool
  RowEncoder : C

/-- Trace events: one per outgoing call to an external collaborator from
`WriteMemBufferEncoded`.  `encodeRowCall` records the exact arguments
handed to `tablecodec.EncodeRow`, `setCall` and `setWithFlagsCall` the
write into the memBuffer. -/
inductive Event (D F H : Type) where
  | encodeRowCall (row : List D) (colIDs : List Int) (valBuf : List Nat)
      (addRowValues : List D) (checksum : Option H)
  | setCall (key : List Nat) (value : List Nat)
  | setWithFlagsCall (key : List Nat) (value : List Nat) (flags : List F)
  deriving DecidableEq

/-- Record of the one call `EncodeBinlogRowData` makes to the external
`tablecodec.EncodeOldRow`, whose two scratch-buffer arguments are nilable
Go slices, hence `Option` (the method always passes nil for both). -/
structure OldRowCall (D : Type) where
  row : List D
  colIDs : List Int
  valBuf : Option (List Nat)
  values : Option (List D)
  deriving DecidableEq

/-- Whether an event is a write into the key-value store. -/
def Event.isStoreWrite : Event D F H → Bool
  | .setCall _ _ => true
  | .setWithFlagsCall _ _ _ => true
  | _ => false

/-- EncodeRowBuffer from `buffers.go`: the column ids and column data for a
row to be encoded, plus the (non-owned) reference to the session's
`WriteStmtBufs`, modelled as an abstract reference value of type `R`. -/
structure EncodeRowBuffer (D R : Type) where
  colIDs : GoSlice Int
  row : GoSlice D
  writeStmtBufs : R

namespace EncodeRowBuffer

/-- Reset from `buffers.go`: resets the inner buffers to a capacity.  The
two `ensureCapacityAndReset` calls at size 0 are the total extraction
`resetSlice` (see `ensureCapacityAndReset_zero_eq`); `d` is the Go zero
value of the datum type. -/
def Reset (d : D) (b : EncodeRowBuffer D R) (capacity : Nat) :
    EncodeRowBuffer D R :=
  { b with
    colIDs := resetSlice 0 b.colIDs capacity
    row := resetSlice d b.row capacity }

/-- AddColVal from `buffers.go`: adds a column value to the buffer. -/
def AddColVal (b : EncodeRowBuffer D R) (colID : Int) (val : D) :
    EncodeRowBuffer D R :=
  { b with colIDs := b.colIDs.push colID, row := b.row.push val }

/-- Iterated `AddColVal` over a list of (column id, value) pairs. -/
def addAll (b : EncodeRowBuffer D R) (pairs : List (Int × D)) :
    EncodeRowBuffer D R :=
  pairs.foldl (fun acc p => acc.AddColVal p.1 p.2) b

/-- The checksum argument built at the top of `WriteMemBufferEncoded`: a
raw checksum bound to the row's handle when row-level checksums are
enabled, the zero checksum (`none`) otherwise. -/
def rowChecksum (cfg : RowEncodingConfig C) (handle : H) : Option H :=
  if cfg.IsRowLevelChecksumEnabled then some handle else none

/-- The value assigned to `stmtBufs.AddRowValues` by `WriteMemBufferEncoded`
before encoding: `ensureCapacityAndReset(stmtBufs.AddRowValues, len(b.row)*2)`
(see `ensureCapacityAndReset_none_eq` for the omitted capacity argument). -/
def pendingAddRowValues (d : D) (stmtBufs : WriteStmtBufs D)
    (b : EncodeRowBuffer D R) : GoSlice D :=
  ensureExact d stmtBufs.AddRowValues (b.row.len * 2)

/-- The call to `tablecodec.EncodeRow` made by `WriteMemBufferEncoded`,
with the external encoder supplied as the oracle `encodeRowFn`; returns
the encoded bytes and the encoder's error. -/
def encodeResult
    (encodeRowFn : L → List D → List Int → List Nat → List D → Option H →
      C → List Nat × Option E)
    (d : D) (cfg : RowEncodingConfig C) (loc : L)
    (stmtBufs : WriteStmtBufs D) (b : EncodeRowBuffer D R) (handle : H) :
    List Nat × Option E :=
  encodeRowFn loc b.row.toList b.colIDs.toList stmtBufs.RowValBuf
    (pendingAddRowValues d stmtBufs b).toList (rowChecksum cfg handle)
    cfg.RowEncoder

/-- WriteMemBufferEncoded from `buffers.go`.  The external collaborators
are oracles: `encodeRowFn` is `tablecodec.EncodeRow`, `handleErrorFn` is
`ec.HandleError`, `setFn` and `setWithFlagsFn` are `memBuffer.Set` and
`memBuffer.SetWithFlags` (returning the store's error).  The session's
`WriteStmtBufs` is store-passed: the caller reads the value behind
`b.writeStmtBufs` and writes back the returned value.  Result: the returned
error, the updated `WriteStmtBufs`, and the trace of collaborator calls. -/
def WriteMemBufferEncoded
    (encodeRowFn : L → List D → List Int → List Nat → List D → Option H →
      C → List Nat × Option E)
    (handleErrorFn : Option E → Option E)
    (setFn : List Nat → List Nat → Option E)
    (setWithFlagsFn : List Nat → List Nat → List F → Option E)
    (d : D) (cfg : RowEncodingConfig C) (loc : L)
    (stmtBufs : WriteStmtBufs D) (b : EncodeRowBuffer D R)
    (key : List Nat) (handle : H) (flags : List F) :
    Option E × WriteStmtBufs D × List (Event D F H) :=
  let checksum := rowChecksum cfg handle
  let addRowValues := pendingAddRowValues d stmtBufs b
  let stmtBufs1 : WriteStmtBufs D :=
    { stmtBufs with AddRowValues := addRowValues }
  let res := encodeResult encodeRowFn d cfg loc stmtBufs b handle
  let encoded := res.1
  let encodeEvent : Event D F H :=
    .encodeRowCall b.row.toList b.colIDs.toList stmtBufs1.RowValBuf
      addRowValues.toList checksum
  match handleErrorFn res.2 with
  | some e => (some e, stmtBufs1, [encodeEvent])
  | none =>
    let stmtBufs2 : WriteStmtBufs D :=
      { stmtBufs1 with RowValBuf := encoded }
    if flags.length = 0 then
      (setFn key encoded, stmtBufs2, [encodeEvent, .setCall key encoded])
    else
      (setWithFlagsFn key encoded flags, stmtBufs2,
        [encodeEvent, .setWithFlagsCall key encoded flags])

/-- EncodeBinlogRowData from `buffers.go`: encodes the row data for binlog
via `tablecodec.EncodeOldRow` (oracle `encodeOldRowFn`) with nil scratch
buffers; errors go through `ec.HandleError` (oracle `handleErrorFn`).
The buffer and the session scratch buffers are returned unchanged (the Go
method writes to neither), together with the trace of the encoder call. -/
def EncodeBinlogRowData
    (encodeOldRowFn : L → List D → List Int → Option (List Nat) →
      Option (List D) → List Nat × Option E)
    (handleErrorFn : Option E → Option E)
    (loc : L) (stmtBufs : WriteStmtBufs D) (b : EncodeRowBuffer D R) :
    (Option (List Nat) × Option E) × EncodeRowBuffer D R ×
      WriteStmtBufs D × OldRowCall D :=
  let res := encodeOldRowFn loc b.row.toList b.colIDs.toList none none
  let ev : OldRowCall D :=
    ⟨b.row.toList, b.colIDs.toList, none, none⟩
  match handleErrorFn res.2 with
  | some e => ((none, some e), b, stmtBufs, ev)
  | none => ((some res.1, none), b, stmtBufs, ev)

end EncodeRowBuffer

/-- CheckRowBuffer from `buffers.go`: the accumulated column values used to
check row constraints. -/
structure CheckRowBuffer (D : Type) where
  rowToCheck : GoSlice D

namespace CheckRowBuffer

/-- GetRowToCheck from `buffers.go`.  Modelled from the spec: the external
`chunk.MutRowFromDatums(b.rowToCheck).ToRow()` (not under src/) builds a
read-only positional row view over exactly the given datums, modelled as
the list of logical contents. -/
def GetRowToCheck (b : CheckRowBuffer D) : List D :=
  b.rowToCheck.toList

/-- AddColVal from `buffers.go`: adds a column value to the buffer for
checking. -/
def AddColVal (b : CheckRowBuffer D) (val : D) : CheckRowBuffer D :=
  { b with rowToCheck := b.rowToCheck.push val }

/-- Iterated `AddColVal` over a list of values. -/
def addAll (b : CheckRowBuffer D) (vals : List D) : CheckRowBuffer D :=
  vals.foldl (fun acc v => acc.AddColVal v) b

/-- Reset from `buffers.go`: resets the inner buffer to a capacity (the
`ensureCapacityAndReset` call at size 0, see
`ensureCapacityAndReset_zero_eq`). -/
def Reset (d : D) (b : CheckRowBuffer D) (capacity : Nat) :
    CheckRowBuffer D :=
  { b with rowToCheck := resetSlice d b.rowToCheck capacity }

end CheckRowBuffer

/-- MutateBuffers from `buffers.go`: the memory pool holding the reference
to the session's `WriteStmtBufs`, one `EncodeRowBuffer` and one
`CheckRowBuffer`. -/
structure MutateBuffers (D R : Type) where
  stmtBufs : R
  encodeRow : EncodeRowBuffer D R
  checkRow : CheckRowBuffer D

/-- NewMutateBuffers from `buffers.go`.  Modelled from the spec for the
external `intest.AssertNotNil` (not under src/): a nil scratch-buffer
pointer is a programming-error-level assertion failure, rendered as
`none`; the nilable pointer argument is an `Option R`. -/
def NewMutateBuffers (stmtBufs : Option R) : Option (MutateBuffers D R) :=
  match stmtBufs with
  | none => none
  | some r =>
    some
      { stmtBufs := r
        encodeRow := { colIDs := .nil, row := .nil, writeStmtBufs := r }
        checkRow := { rowToCheck := .nil } }

/-- GetEncodeRowBufferWithCap from `buffers.go`: resets the pool's single
`EncodeRowBuffer` to the capacity and returns it (with the updated pool). -/
def MutateBuffers.GetEncodeRowBufferWithCap (d : D) (b : MutateBuffers D R)
    (capacity : Nat) : EncodeRowBuffer D R × MutateBuffers D R :=
  let buffer := b.encodeRow.Reset d capacity
  (buffer, { b with encodeRow := buffer })

/-- GetCheckRowBufferWithCap from `buffers.go`: resets the pool's single
`CheckRowBuffer` to the capacity and returns it (with the updated pool). -/
def MutateBuffers.GetCheckRowBufferWithCap (d : D) (b : MutateBuffers D R)
    (capacity : Nat) : CheckRowBuffer D × MutateBuffers D R :=
  let buffer := b.checkRow.Reset d capacity
  (buffer, { b with checkRow := buffer })

/-- GetWriteStmtBufs from `buffers.go`: returns the pool's scratch-buffer
reference. -/
def MutateBuffers.GetWriteStmtBufs (b : MutateBuffers D R) : R :=
  b.stmtBufs

end Buffers

section Lemmas

variable {D E F H L R C : Type}

theorem EncodeRowBuffer.addAll_colIDs_toList (b : EncodeRowBuffer D R)
    (pairs : List (Int × D)) :
    (b.addAll pairs).colIDs.toList = b.colIDs.toList ++ pairs.map Prod.fst := by
  induction pairs generalizing b with
  | nil => simp [addAll]
  | cons p t ih =>
    have step := ih (b.AddColVal p.1 p.2)
    simp only [addAll, List.foldl_cons] at step ⊢
    rw [step]
    simp [AddColVal, GoSlice.toList_push]

theorem EncodeRowBuffer.addAll_row_toList (b : EncodeRowBuffer D R)
    (pairs : List (Int × D)) :
    (b.addAll pairs).row.toList = b.row.toList ++ pairs.map Prod.snd := by
  induction pairs generalizing b with
  | nil => simp [addAll]
  | cons p t ih =>
    have step := ih (b.AddColVal p.1 p.2)
    simp only [addAll, List.foldl_cons] at step ⊢
    rw [step]
    simp [AddColVal, GoSlice.toList_push]

theorem EncodeRowBuffer.addAll_writeStmtBufs (b : EncodeRowBuffer D R)
    (pairs : List (Int × D)) :
    (b.addAll pairs).writeStmtBufs = b.writeStmtBufs := by
  induction pairs generalizing b with
  | nil => rfl
  | cons p t ih => simpa [addAll, AddColVal] using ih (b.AddColVal p.1 p.2)

theorem EncodeRowBuffer.Reset_colIDs_toList (d : D) (b : EncodeRowBuffer D R)
    (c : Nat) : (b.Reset d c).colIDs.toList = [] :=
  resetSlice_toList 0 b.colIDs c

theorem EncodeRowBuffer.Reset_row_toList (d : D) (b : EncodeRowBuffer D R)
    (c : Nat) : (b.Reset d c).row.toList = [] :=
  resetSlice_toList d b.row c

theorem CheckRowBuffer.addAll_toList (b : CheckRowBuffer D) (vals : List D) :
    (b.addAll vals).rowToCheck.toList = b.rowToCheck.toList ++ vals := by
  induction vals generalizing b with
  | nil => simp [addAll]
  | cons v t ih =>
    have step := ih (b.AddColVal v)
    simp only [addAll, List.foldl_cons] at step ⊢
    rw [step]
    simp [AddColVal, GoSlice.toList_push]

theorem EncodeRowBuffer.writeMemBufferEncoded_trace_head
    (encodeRowFn : L → List D → List Int → List Nat → List D → Option H →
      C → List Nat × Option E)
    (handleErrorFn : Option E → Option E)
    (setFn : List Nat → List Nat → Option E)
    (setWithFlagsFn : List Nat → List Nat → List F → Option E)
    (d : D) (cfg : RowEncodingConfig C) (loc : L)
    (stmtBufs : WriteStmtBufs D) (b : EncodeRowBuffer D R)
    (key : List Nat) (handle : H) (flags : List F) :
    (WriteMemBufferEncoded encodeRowFn handleErrorFn setFn setWithFlagsFn
        d cfg loc stmtBufs b key handle flags).2.2.head? =
      some (.encodeRowCall b.row.toList b.colIDs.toList stmtBufs.RowValBuf
        (pendingAddRowValues d stmtBufs b).toList (rowChecksum cfg handle)) := by
  unfold WriteMemBufferEncoded
  cases hh : handleErrorFn (encodeResult encodeRowFn d cfg loc stmtBufs b handle).2 with
  | none => simp only [hh]; split <;> rfl
  | some e => simp only [hh]; rfl

theorem resetSlice_cap_ge (d : α) (s : GoSlice α) (c : Nat) :
    s.cap ≤ (resetSlice d s c).cap := by
  rw [resetSlice_cap]
  split <;> omega

end Lemmas

section Claims

variable {D E F H L R C : Type}

/-- C1 counterexample: the claim quantifies over every slice, length and
explicit capacity hint, but at the empty slice with requested length 1 and
explicit hint 0 the capacity test `cap(s) ≥ c` succeeds and the reslicing
to length 1 panics (length 1 exceeds capacity 0), so no slice of logical
length 1 is returned. -/
theorem C1_counterexample :
    ensureCapacityAndReset (0 : Nat) GoSlice.nil 1 (some 0) = none := rfl

/-- C1 (amended with the precondition that the requested length does not
exceed the effective capacity hint): `ensureCapacityAndReset(s, n, c)`
returns a slice of logical length exactly `n`; if `cap(s) ≥ c` it returns
the very same backing storage with only the length adjusted, and if
`cap(s) < c` it returns a freshly allocated slice of capacity at least `c`
filled with zero values, nothing copied from `s`. -/
theorem C1_ensureCapacityAndReset_spec (d : α) (s : GoSlice α) (n : Nat)
    (c : Option Nat) (h : n ≤ c.getD n) :
    ∃ r, ensureCapacityAndReset d s n c = some r ∧
      r.len = n ∧
      (c.getD n ≤ s.cap → r.arr = s.arr) ∧
      (s.cap < c.getD n →
        r.arr = List.replicate (c.getD n) d ∧ c.getD n ≤ r.cap) := by
  unfold ensureCapacityAndReset
  by_cases hc : s.arr.length < c.getD n
  · refine ⟨⟨List.replicate (c.getD n) d, n, by simpa using h⟩, ?_, rfl, ?_, ?_⟩
    · simp [hc, h]
    · intro hle
      exact absurd hc (Nat.not_lt.mpr hle)
    · intro _
      exact ⟨rfl, by simp [GoSlice.cap]⟩
  · have hle : n ≤ s.arr.length := Nat.le_trans h (Nat.not_lt.mp hc)
    refine ⟨⟨s.arr, n, hle⟩, ?_, rfl, fun _ => rfl, ?_⟩
    · simp [hc, hle]
    · intro hlt
      exact absurd hlt hc

/-- C1 witness: the amended theorem applied at the empty slice, requested
length 1 and explicit hint 2. -/
theorem C1_witness :
    ∃ r, ensureCapacityAndReset (0 : Nat) GoSlice.nil 1 (some 2) = some r ∧
      r.len = 1 ∧
      ((some 2 : Option Nat).getD 1 ≤ (GoSlice.nil : GoSlice Nat).cap →
        r.arr = (GoSlice.nil : GoSlice Nat).arr) ∧
      ((GoSlice.nil : GoSlice Nat).cap < (some 2 : Option Nat).getD 1 →
        r.arr = List.replicate ((some 2 : Option Nat).getD 1) 0 ∧
          (some 2 : Option Nat).getD 1 ≤ r.cap) :=
  C1_ensureCapacityAndReset_spec 0 GoSlice.nil 1 (some 2) (by decide)

/-- C10: `ensureCapacityAndReset` is total exactly under the precondition
that the requested size does not exceed the effective capacity: with an
explicit hint smaller than the size and an existing capacity below the
hint, the `make(len, cap)` call panics (`none`); whenever `size ≤ hint`,
or the hint is omitted (every caller in the file passes size 0 or omits
the hint), the function returns a slice. -/
theorem C10_ensureCapacityAndReset_totality (d : α) :
    (∀ (s : GoSlice α) (n c : Nat), c < n → s.cap < c →
        ensureCapacityAndReset d s n (some c) = none) ∧
    (∀ (s : GoSlice α) (n c : Nat), n ≤ c →
        (ensureCapacityAndReset d s n (some c)).isSome = true) ∧
    (∀ (s : GoSlice α) (n : Nat),
        (ensureCapacityAndReset d s n none).isSome = true) := by
  refine ⟨?_, ?_, ?_⟩
  · intro s n c hcn hcap
    have hcap2 : s.arr.length < c := hcap
    unfold ensureCapacityAndReset
    simp only [Option.getD]
    rw [if_pos hcap2, dif_neg (Nat.not_le.mpr hcn)]
  · intro s n c hnc
    unfold ensureCapacityAndReset
    simp only [Option.getD]
    by_cases hcap : s.arr.length < c
    · rw [if_pos hcap, dif_pos hnc]
      rfl
    · rw [if_neg hcap, dif_pos (Nat.le_trans hnc (Nat.not_lt.mp hcap))]
      rfl
  · intro s n
    rw [ensureCapacityAndReset_none_eq]
    rfl

/-- C10 witness: the totality theorem applied at the empty slice — the
panic case at size 2 with hint 1, the safe case at size 1 with hint 2,
and the omitted-hint case at size 3. -/
theorem C10_witness :
    ensureCapacityAndReset (0 : Nat) GoSlice.nil 2 (some 1) = none ∧
    (ensureCapacityAndReset (0 : Nat) GoSlice.nil 1 (some 2)).isSome = true ∧
    (ensureCapacityAndReset (0 : Nat) GoSlice.nil 3 none).isSome = true :=
  ⟨(C10_ensureCapacityAndReset_totality 0).1 GoSlice.nil 2 1 (by decide)
      (by decide),
   (C10_ensureCapacityAndReset_totality 0).2.1 GoSlice.nil 1 2 (by decide),
   (C10_ensureCapacityAndReset_totality 0).2.2 GoSlice.nil 3⟩

theorem EncodeRowBuffer.encodeReset_cap_ge (d : D) (b : EncodeRowBuffer D R)
    (c : Nat) :
    b.colIDs.cap ≤ (b.Reset d c).colIDs.cap ∧
    b.row.cap ≤ (b.Reset d c).row.cap :=
  ⟨resetSlice_cap_ge 0 b.colIDs c, resetSlice_cap_ge d b.row c⟩

theorem CheckRowBuffer.checkReset_cap_ge (d : D) (b : CheckRowBuffer D)
    (c : Nat) : b.rowToCheck.cap ≤ (b.Reset d c).rowToCheck.cap :=
  resetSlice_cap_ge d b.rowToCheck c

/-- C3: after `Reset(n)` then `Reset(m)` with `m < n`, each inner slice of
an `EncodeRowBuffer` or a `CheckRowBuffer` keeps a backing capacity at
least the one established by `Reset(n)`; and across any sequence of
`Reset` calls the backing capacity never decreases. -/
theorem C3_reset_capacity_monotone (D R : Type) (d : D) :
    (∀ (b : EncodeRowBuffer D R) (n m : Nat), m < n →
        ((b.Reset d n).Reset d m).colIDs.cap ≥ (b.Reset d n).colIDs.cap ∧
        ((b.Reset d n).Reset d m).row.cap ≥ (b.Reset d n).row.cap) ∧
    (∀ (b : CheckRowBuffer D) (n m : Nat), m < n →
        ((b.Reset d n).Reset d m).rowToCheck.cap ≥
          (b.Reset d n).rowToCheck.cap) ∧
    (∀ (b : EncodeRowBuffer D R) (caps : List Nat),
        (caps.foldl (fun x c => x.Reset d c) b).colIDs.cap ≥ b.colIDs.cap ∧
        (caps.foldl (fun x c => x.Reset d c) b).row.cap ≥ b.row.cap) ∧
    (∀ (b : CheckRowBuffer D) (caps : List Nat),
        (caps.foldl (fun x c => x.Reset d c) b).rowToCheck.cap ≥
          b.rowToCheck.cap) := by
  refine ⟨fun b n m _ => (b.Reset d n).encodeReset_cap_ge d m,
    fun b n m _ => (b.Reset d n).checkReset_cap_ge d m, ?_, ?_⟩
  · intro b caps
    induction caps generalizing b with
    | nil => exact ⟨Nat.le_refl _, Nat.le_refl _⟩
    | cons c t ih =>
      have h1 := b.encodeReset_cap_ge d c
      have h2 := ih (b.Reset d c)
      simp only [List.foldl_cons]
      exact ⟨Nat.le_trans h1.1 h2.1, Nat.le_trans h1.2 h2.2⟩
  · intro b caps
    induction caps generalizing b with
    | nil => exact Nat.le_refl _
    | cons c t ih =>
      exact Nat.le_trans (b.checkReset_cap_ge d c) (ih (b.Reset d c))

/-- C3 witness: the monotonicity theorem applied to fresh buffers with
`Reset(2)` then `Reset(1)`. -/
theorem C3_witness :
    ((((⟨.nil, .nil, 0⟩ : EncodeRowBuffer Nat Nat).Reset 0 2).Reset
        0 1).colIDs.cap ≥
      ((⟨.nil, .nil, 0⟩ : EncodeRowBuffer Nat Nat).Reset 0 2).colIDs.cap ∧
      (((⟨.nil, .nil, 0⟩ : EncodeRowBuffer Nat Nat).Reset 0 2).Reset
          0 1).row.cap ≥
        ((⟨.nil, .nil, 0⟩ : EncodeRowBuffer Nat Nat).Reset 0 2).row.cap) ∧
    ((((⟨.nil⟩ : CheckRowBuffer Nat).Reset 0 2).Reset 0 1).rowToCheck.cap ≥
      ((⟨.nil⟩ : CheckRowBuffer Nat).Reset 0 2).rowToCheck.cap) :=
  ⟨(C3_reset_capacity_monotone Nat Nat 0).1 ⟨.nil, .nil, 0⟩ 2 1 (by decide),
   (C3_reset_capacity_monotone Nat Nat 0).2.1 ⟨.nil⟩ 2 1 (by decide)⟩

end Claims

section ClaimsTwo

variable {D E F H L R C : Type}

/-- C2: after a Reset followed by `k` calls to AddColVal, the buffer's two
sequences both have length `k`, holding the column ids and the values in
exactly insertion order, and `WriteMemBufferEncoded` hands exactly these
two sequences, positionally aligned, to the external row encoder (the
head of the call trace is the encoder call carrying them). -/
theorem C2_positional_correspondence
    (encodeRowFn : L → List D → List Int → List Nat → List D → Option H →
      C → List Nat × Option E)
    (handleErrorFn : Option E → Option E)
    (setFn : List Nat → List Nat → Option E)
    (setWithFlagsFn : List Nat → List Nat → List F → Option E)
    (d : D) (cfg : RowEncodingConfig C) (loc : L)
    (stmtBufs : WriteStmtBufs D) (b : EncodeRowBuffer D R)
    (key : List Nat) (handle : H) (flags : List F)
    (c : Nat) (pairs : List (Int × D)) :
    ((b.Reset d c).addAll pairs).colIDs.len = pairs.length ∧
    ((b.Reset d c).addAll pairs).row.len = pairs.length ∧
    ((b.Reset d c).addAll pairs).colIDs.toList = pairs.map Prod.fst ∧
    ((b.Reset d c).addAll pairs).row.toList = pairs.map Prod.snd ∧
    (EncodeRowBuffer.WriteMemBufferEncoded encodeRowFn handleErrorFn setFn
        setWithFlagsFn d cfg loc stmtBufs ((b.Reset d c).addAll pairs) key
        handle flags).2.2.head? =
      some (.encodeRowCall (pairs.map Prod.snd) (pairs.map Prod.fst)
        stmtBufs.RowValBuf
        (EncodeRowBuffer.pendingAddRowValues d stmtBufs
          ((b.Reset d c).addAll pairs)).toList
        (EncodeRowBuffer.rowChecksum cfg handle)) := by
  have hcol : ((b.Reset d c).addAll pairs).colIDs.toList =
      pairs.map Prod.fst := by
    rw [EncodeRowBuffer.addAll_colIDs_toList,
      EncodeRowBuffer.Reset_colIDs_toList, List.nil_append]
  have hrow : ((b.Reset d c).addAll pairs).row.toList =
      pairs.map Prod.snd := by
    rw [EncodeRowBuffer.addAll_row_toList,
      EncodeRowBuffer.Reset_row_toList, List.nil_append]
  refine ⟨?_, ?_, hcol, hrow, ?_⟩
  · rw [← GoSlice.toList_length, hcol, List.length_map]
  · rw [← GoSlice.toList_length, hrow, List.length_map]
  · rw [EncodeRowBuffer.writeMemBufferEncoded_trace_head, hcol, hrow]

theorem EncodeRowBuffer.writeMemBufferEncoded_addRowValues
    (encodeRowFn : L → List D → List Int → List Nat → List D → Option H →
      C → List Nat × Option E)
    (handleErrorFn : Option E → Option E)
    (setFn : List Nat → List Nat → Option E)
    (setWithFlagsFn : List Nat → List Nat → List F → Option E)
    (d : D) (cfg : RowEncodingConfig C) (loc : L)
    (stmtBufs : WriteStmtBufs D) (b : EncodeRowBuffer D R)
    (key : List Nat) (handle : H) (flags : List F) :
    (WriteMemBufferEncoded encodeRowFn handleErrorFn setFn setWithFlagsFn
        d cfg loc stmtBufs b key handle flags).2.1.AddRowValues =
      pendingAddRowValues d stmtBufs b := by
  unfold WriteMemBufferEncoded
  cases hh : handleErrorFn (encodeResult encodeRowFn d cfg loc stmtBufs b handle).2 with
  | none => simp only [hh]; split <;> rfl
  | some e => simp only [hh]

/-- C4: every call to `WriteMemBufferEncoded` sets the logical length of
the scratch buffers' secondary area (`AddRowValues`) to exactly `2*k`
(where `k` is the number of accumulated values), regardless of the length
established by any prior call, and the encoder receives a secondary
scratch argument of exactly that length. -/
theorem C4_scratch_resize
    (encodeRowFn : L → List D → List Int → List Nat → List D → Option H →
      C → List Nat × Option E)
    (handleErrorFn : Option E → Option E)
    (setFn : List Nat → List Nat → Option E)
    (setWithFlagsFn : List Nat → List Nat → List F → Option E)
    (d : D) (cfg : RowEncodingConfig C) (loc : L)
    (stmtBufs : WriteStmtBufs D) (b : EncodeRowBuffer D R)
    (key : List Nat) (handle : H) (flags : List F) :
    (EncodeRowBuffer.WriteMemBufferEncoded encodeRowFn handleErrorFn setFn
        setWithFlagsFn d cfg loc stmtBufs b key handle
        flags).2.1.AddRowValues.len = 2 * b.row.len ∧
    (EncodeRowBuffer.pendingAddRowValues d stmtBufs b).toList.length =
      2 * b.row.len ∧
    (EncodeRowBuffer.WriteMemBufferEncoded encodeRowFn handleErrorFn setFn
        setWithFlagsFn d cfg loc stmtBufs b key handle flags).2.2.head? =
      some (.encodeRowCall b.row.toList b.colIDs.toList stmtBufs.RowValBuf
        (EncodeRowBuffer.pendingAddRowValues d stmtBufs b).toList
        (EncodeRowBuffer.rowChecksum cfg handle)) := by
  have hlen : (EncodeRowBuffer.pendingAddRowValues d stmtBufs b).len =
      2 * b.row.len := by
    rw [EncodeRowBuffer.pendingAddRowValues, ensureExact_len, Nat.mul_comm]
  refine ⟨?_, ?_, ?_⟩
  · rw [EncodeRowBuffer.writeMemBufferEncoded_addRowValues, hlen]
  · rw [GoSlice.toList_length, hlen]
  · exact EncodeRowBuffer.writeMemBufferEncoded_trace_head encodeRowFn
      handleErrorFn setFn setWithFlagsFn d cfg loc stmtBufs b key handle flags

/-- C7: a `Reset(c)` followed by `AddColVal(v_1) ... AddColVal(v_k)` cycle
on a CheckRowBuffer makes `GetRowToCheck` return exactly `[v_1..v_k]` in
insertion order, and no value added before that Reset (an arbitrary prior
batch on an arbitrary buffer) appears in the view. -/
theorem C7_check_row_view (D : Type) (d : D) (b : CheckRowBuffer D)
    (prior : List D) (c : Nat) (vals : List D) :
    (((b.addAll prior).Reset d c).addAll vals).GetRowToCheck = vals := by
  unfold CheckRowBuffer.GetRowToCheck
  rw [CheckRowBuffer.addAll_toList]
  simp [CheckRowBuffer.Reset, resetSlice_toList]

/-- C9: constructing `MutateBuffers` with a nil scratch-buffer reference is
an assertion failure; a valid construction holds exactly the given
reference, one EncodeRowBuffer bound to that same reference (a binding
that Reset and AddColVal never change), and one fresh CheckRowBuffer. -/
theorem C9_newMutateBuffers (D R : Type) (d : D) :
    ((NewMutateBuffers none : Option (MutateBuffers D R)) = none) ∧
    (∀ r : R, (NewMutateBuffers (some r) : Option (MutateBuffers D R)) =
        some ⟨r, ⟨.nil, .nil, r⟩, ⟨.nil⟩⟩) ∧
    (∀ (b : EncodeRowBuffer D R) (c : Nat),
        (b.Reset d c).writeStmtBufs = b.writeStmtBufs) ∧
    (∀ (b : EncodeRowBuffer D R) (pairs : List (Int × D)),
        (b.addAll pairs).writeStmtBufs = b.writeStmtBufs) :=
  ⟨rfl, fun _ => rfl, fun _ _ => rfl,
   fun b pairs => EncodeRowBuffer.addAll_writeStmtBufs b pairs⟩

end ClaimsTwo

section ClaimsThree

variable {D E F H L R C : Type}

/-- C5: the encoder's error is handed to the error-context collaborator;
whenever that collaborator returns an error, `WriteMemBufferEncoded`
returns exactly that error, performs no store write, and leaves the
scratch buffers' `RowValBuf` unchanged; whenever it returns nil (even if
it suppressed an encoder error), execution proceeds to the store write. -/
theorem C5_error_forwarding
    (encodeRowFn : L → List D → List Int → List Nat → List D → Option H →
      C → List Nat × Option E)
    (handleErrorFn : Option E → Option E)
    (setFn : List Nat → List Nat → Option E)
    (setWithFlagsFn : List Nat → List Nat → List F → Option E)
    (d : D) (cfg : RowEncodingConfig C) (loc : L)
    (stmtBufs : WriteStmtBufs D) (b : EncodeRowBuffer D R)
    (key : List Nat) (handle : H) (flags : List F) :
    (∀ e, handleErrorFn (EncodeRowBuffer.encodeResult encodeRowFn d cfg loc
        stmtBufs b handle).2 = some e →
      (EncodeRowBuffer.WriteMemBufferEncoded encodeRowFn handleErrorFn setFn
          setWithFlagsFn d cfg loc stmtBufs b key handle flags).1 = some e ∧
      (EncodeRowBuffer.WriteMemBufferEncoded encodeRowFn handleErrorFn setFn
          setWithFlagsFn d cfg loc stmtBufs b key handle
          flags).2.1.RowValBuf = stmtBufs.RowValBuf ∧
      (∀ ev ∈ (EncodeRowBuffer.WriteMemBufferEncoded encodeRowFn
          handleErrorFn setFn setWithFlagsFn d cfg loc stmtBufs b key handle
          flags).2.2, ev.isStoreWrite = false)) ∧
    (handleErrorFn (EncodeRowBuffer.encodeResult encodeRowFn d cfg loc
        stmtBufs b handle).2 = none →
      ∃ ev ∈ (EncodeRowBuffer.WriteMemBufferEncoded encodeRowFn handleErrorFn
          setFn setWithFlagsFn d cfg loc stmtBufs b key handle flags).2.2,
        ev.isStoreWrite = true) := by
  constructor
  · intro e he
    simp only [EncodeRowBuffer.WriteMemBufferEncoded, he]
    refine ⟨trivial, trivial, ?_⟩
    intro ev hev
    simp only [List.mem_singleton] at hev
    subst hev
    rfl
  · intro he
    simp only [EncodeRowBuffer.WriteMemBufferEncoded, he]
    split
    · exact ⟨.setCall key (EncodeRowBuffer.encodeResult encodeRowFn d cfg loc
        stmtBufs b handle).1, by simp, rfl⟩
    · exact ⟨.setWithFlagsCall key (EncodeRowBuffer.encodeResult encodeRowFn d
        cfg loc stmtBufs b handle).1 flags, by simp, rfl⟩

/-- C6: on a successful encode, the returned bytes are stored back into
the scratch buffers' `RowValBuf` and written to the store under the given
key — through `Set` when no flags were supplied and through
`SetWithFlags` otherwise — and the store operation's error is returned
unchanged. -/
theorem C6_success_write
    (encodeRowFn : L → List D → List Int → List Nat → List D → Option H →
      C → List Nat × Option E)
    (handleErrorFn : Option E → Option E)
    (setFn : List Nat → List Nat → Option E)
    (setWithFlagsFn : List Nat → List Nat → List F → Option E)
    (d : D) (cfg : RowEncodingConfig C) (loc : L)
    (stmtBufs : WriteStmtBufs D) (b : EncodeRowBuffer D R)
    (key : List Nat) (handle : H) (flags : List F)
    (hok : handleErrorFn (EncodeRowBuffer.encodeResult encodeRowFn d cfg loc
        stmtBufs b handle).2 = none) :
    (EncodeRowBuffer.WriteMemBufferEncoded encodeRowFn handleErrorFn setFn
        setWithFlagsFn d cfg loc stmtBufs b key handle
        flags).2.1.RowValBuf =
      (EncodeRowBuffer.encodeResult encodeRowFn d cfg loc stmtBufs b
        handle).1 ∧
    (flags = [] →
      EncodeRowBuffer.WriteMemBufferEncoded encodeRowFn handleErrorFn setFn
          setWithFlagsFn d cfg loc stmtBufs b key handle flags =
        (setFn key (EncodeRowBuffer.encodeResult encodeRowFn d cfg loc
            stmtBufs b handle).1,
          ⟨(EncodeRowBuffer.encodeResult encodeRowFn d cfg loc stmtBufs b
              handle).1,
            EncodeRowBuffer.pendingAddRowValues d stmtBufs b⟩,
          [.encodeRowCall b.row.toList b.colIDs.toList stmtBufs.RowValBuf
              (EncodeRowBuffer.pendingAddRowValues d stmtBufs b).toList
              (EncodeRowBuffer.rowChecksum cfg handle),
            .setCall key (EncodeRowBuffer.encodeResult encodeRowFn d cfg loc
              stmtBufs b handle).1])) ∧
    (flags ≠ [] →
      EncodeRowBuffer.WriteMemBufferEncoded encodeRowFn handleErrorFn setFn
          setWithFlagsFn d cfg loc stmtBufs b key handle flags =
        (setWithFlagsFn key (EncodeRowBuffer.encodeResult encodeRowFn d cfg
            loc stmtBufs b handle).1 flags,
          ⟨(EncodeRowBuffer.encodeResult encodeRowFn d cfg loc stmtBufs b
              handle).1,
            EncodeRowBuffer.pendingAddRowValues d stmtBufs b⟩,
          [.encodeRowCall b.row.toList b.colIDs.toList stmtBufs.RowValBuf
              (EncodeRowBuffer.pendingAddRowValues d stmtBufs b).toList
              (EncodeRowBuffer.rowChecksum cfg handle),
            .setWithFlagsCall key (EncodeRowBuffer.encodeResult encodeRowFn d
              cfg loc stmtBufs b handle).1 flags])) := by
  refine ⟨?_, ?_, ?_⟩
  · simp only [EncodeRowBuffer.WriteMemBufferEncoded, hok]
    split <;> rfl
  · intro hf
    subst hf
    simp only [EncodeRowBuffer.WriteMemBufferEncoded, hok, List.length_nil,
      if_pos]
  · intro hf
    have hlen : ¬flags.length = 0 := fun hzero =>
      hf (List.length_eq_zero.mp hzero)
    simp only [EncodeRowBuffer.WriteMemBufferEncoded, hok, if_neg hlen]

/-- C8: `EncodeBinlogRowData` hands nil for both scratch-buffer arguments
of the legacy encoder, so no pooled storage reaches it and its output is a
standalone byte sequence, and it leaves the buffer and the session scratch
buffers unchanged, so a subsequent Reset/AddColVal cycle is exactly what
it would have been without the call (independent of the returned bytes). -/
theorem C8_binlog_standalone
    (encodeOldRowFn : L → List D → List Int → Option (List Nat) →
      Option (List D) → List Nat × Option E)
    (handleErrorFn : Option E → Option E)
    (loc : L) (stmtBufs : WriteStmtBufs D) (b : EncodeRowBuffer D R)
    (d : D) :
    (EncodeRowBuffer.EncodeBinlogRowData encodeOldRowFn handleErrorFn loc
        stmtBufs b).2.1 = b ∧
    (EncodeRowBuffer.EncodeBinlogRowData encodeOldRowFn handleErrorFn loc
        stmtBufs b).2.2.1 = stmtBufs ∧
    (EncodeRowBuffer.EncodeBinlogRowData encodeOldRowFn handleErrorFn loc
        stmtBufs b).2.2.2 =
      ⟨b.row.toList, b.colIDs.toList, none, none⟩ ∧
    (∀ (c : Nat) (pairs : List (Int × D)),
      ((EncodeRowBuffer.EncodeBinlogRowData encodeOldRowFn handleErrorFn loc
          stmtBufs b).2.1.Reset d c).addAll pairs =
        (b.Reset d c).addAll pairs) := by
  unfold EncodeRowBuffer.EncodeBinlogRowData
  cases hh : handleErrorFn
      (encodeOldRowFn loc b.row.toList b.colIDs.toList none none).2 <;>
    simp only [hh] <;>
    exact ⟨trivial, trivial, trivial, fun c pairs => trivial⟩

end ClaimsThree

/-- Concrete encoder oracle over Nat that succeeds with bytes `[9]`. -/
def natEncodeOk : Nat → List Nat → List Int → List Nat → List Nat →
    Option Nat → Nat → List Nat × Option Nat :=
  fun _ _ _ _ _ _ _ => ([9], none)

/-- Concrete encoder oracle over Nat that fails with error `7`. -/
def natEncodeFail : Nat → List Nat → List Int → List Nat → List Nat →
    Option Nat → Nat → List Nat × Option Nat :=
  fun _ _ _ _ _ _ _ => ([], some 7)

/-- Concrete store `Set` oracle over Nat that reports no error. -/
def natSet : List Nat → List Nat → Option Nat := fun _ _ => none

/-- Concrete store `SetWithFlags` oracle over Nat that reports no error. -/
def natSetWithFlags : List Nat → List Nat → List Nat → Option Nat :=
  fun _ _ _ => none

/-- Concrete encoding configuration over Nat with checksums disabled. -/
def natCfg : RowEncodingConfig Nat := ⟨false, 0⟩

/-- Concrete scratch buffers over Nat, empty. -/
def natStmtBufs : WriteStmtBufs Nat := ⟨[], .nil⟩

/-- Concrete encode-row buffer over Nat, empty. -/
def natBuf : EncodeRowBuffer Nat Nat := ⟨.nil, .nil, 0⟩

/-- C5 witness: the error-forwarding theorem applied with an identity error
context, once with a failing encoder (error 7 is returned, no store write)
and once with a succeeding encoder (a store write happens). -/
theorem C5_witness :
    ((EncodeRowBuffer.WriteMemBufferEncoded natEncodeFail id natSet
        natSetWithFlags 0 natCfg 0 natStmtBufs natBuf [] 0
        ([] : List Nat)).1 = some 7 ∧
      (EncodeRowBuffer.WriteMemBufferEncoded natEncodeFail id natSet
        natSetWithFlags 0 natCfg 0 natStmtBufs natBuf [] 0
        ([] : List Nat)).2.1.RowValBuf = natStmtBufs.RowValBuf ∧
      (∀ ev ∈ (EncodeRowBuffer.WriteMemBufferEncoded natEncodeFail id natSet
          natSetWithFlags 0 natCfg 0 natStmtBufs natBuf [] 0
          ([] : List Nat)).2.2, ev.isStoreWrite = false)) ∧
    (∃ ev ∈ (EncodeRowBuffer.WriteMemBufferEncoded natEncodeOk id natSet
        natSetWithFlags 0 natCfg 0 natStmtBufs natBuf [] 0
        ([] : List Nat)).2.2, ev.isStoreWrite = true) :=
  ⟨(C5_error_forwarding natEncodeFail id natSet natSetWithFlags 0 natCfg 0
      natStmtBufs natBuf [] 0 []).1 7 rfl,
   (C5_error_forwarding natEncodeOk id natSet natSetWithFlags 0 natCfg 0
      natStmtBufs natBuf [] 0 []).2 rfl⟩

/-- C6 witness: the success-path theorem applied with a succeeding encoder
and the identity error context; the encoded bytes land in `RowValBuf`. -/
theorem C6_witness :
    (EncodeRowBuffer.WriteMemBufferEncoded natEncodeOk id natSet
        natSetWithFlags 0 natCfg 0 natStmtBufs natBuf [1] 0
        ([] : List Nat)).2.1.RowValBuf =
      (EncodeRowBuffer.encodeResult natEncodeOk 0 natCfg 0 natStmtBufs
        natBuf 0).1 :=
  (C6_success_write natEncodeOk id natSet natSetWithFlags 0 natCfg 0
      natStmtBufs natBuf [1] 0 [] rfl).1
